import Mathlib

/-!
Verification of the MQTT-import routing and normalization engine of the
zennora-signalk-mqtt-import plugin (src/index.js, second revision: the one
with MMSI exclusion and persisted rule storage, lines 640-1388).

JavaScript string primitives (split, replace, startsWith, includes) are
embedded as structural functions over the character list of a string, with
the exact semantics the source relies on: split on a single-character
separator keeping empty pieces, replace of a plain (non-regex) pattern
replacing only the first occurrence, regex replace with the g flag
replacing every occurrence.
-/

namespace MqttImport

/-- JS s.replace(/a/g, b) for single characters: replace every occurrence
of the character a by the character b. -/
def replaceChar (a b : Char) (s : String) : String :=
  String.mk (s.data.map (fun c => if c = a then b else c))

/-- JS s.split(sep) for a single-character separator: splits keeping empty
pieces, so "a//b" gives ["a", "", "b"] and "" gives [""]. -/
def splitCharAux (sep : Char) : List Char → List (List Char)
| [] => [[]]
| c :: cs =>
  let r := splitCharAux sep cs
  if c = sep then [] :: r
  else
    match r with
    | [] => [[c]]
    | x :: xs => (c :: x) :: xs

/-- JS topic.split('/') and friends. -/
def jsSplit (sep : Char) (s : String) : List String :=
  (splitCharAux sep s.data).map String.mk

/-- JS arr.join('.'). -/
def joinDot : List String → String
| [] => ""
| [x] => x
| x :: y :: xs => x ++ "." ++ joinDot (y :: xs)

/-- JS s.startsWith(p). -/
def startsW (s p : String) : Bool :=
  p.data.isPrefixOf s.data

/-- JS s.includes(c) for a single character. -/
def containsChar (s : String) (c : Char) : Bool :=
  s.data.contains c

/-- Helper for containsSub: does pat occur as a contiguous run in the list. -/
def containsSubAux (pat : List Char) : List Char → Bool
| [] => pat.isEmpty
| c :: cs => pat.isPrefixOf (c :: cs) || containsSubAux pat cs

/-- JS s.includes(pat) for a multi-character pattern. -/
def containsSub (s pat : String) : Bool :=
  containsSubAux pat.data s.data

/-- JS s.replace(pat, repl) with a plain string pattern: replaces only the
first occurrence, returns s unchanged when pat does not occur. -/
def replaceFirstAux (pat repl : List Char) : List Char → List Char
| [] => []
| c :: cs =>
  if pat.isPrefixOf (c :: cs) then repl ++ (c :: cs).drop pat.length
  else c :: replaceFirstAux pat repl cs

/-- String-level wrapper for replaceFirstAux. -/
def replaceFirst (s pat repl : String) : String :=
  String.mk (replaceFirstAux pat.data repl.data s.data)

/-- JS s.replace(pat, '') with a plain string pattern (first occurrence only). -/
def removeFirst (s pat : String) : String :=
  replaceFirst s pat ""

/-- Fuel-driven worker for replaceAllSub; the fuel is the length of the
remaining input, which bounds the number of steps. -/
def replaceAllGo (pat repl : List Char) : Nat → List Char → List Char
| _, [] => []
| 0, l => l
| Nat.succ n, c :: cs =>
  if pat.isEmpty then c :: cs
  else if pat.isPrefixOf (c :: cs) then
    repl ++ replaceAllGo pat repl n ((c :: cs).drop pat.length)
  else c :: replaceAllGo pat repl n cs

/-- JS s.replace(re, repl) for a regex that is a plain string with the g
flag: replaces every (non-overlapping, leftmost-first) occurrence. -/
def replaceAllSub (s pat repl : String) : String :=
  String.mk (replaceAllGo pat.data repl.data s.data.length s.data)

/-- JS truthiness of the selfVesselUrn variable: null and the empty string
are falsy, every other string is truthy. -/
def selfTruthy : Option String → Bool
| none => false
| some s => s != ""

/-- urnToMqttFormat (src/index.js:1002): urn.replace(/:/g, '_'), turning
urn:mrn:imo:mmsi:368396230 into urn_mrn_imo_mmsi_368396230. The null
short-circuit of the source is handled at each call site, which only calls
this on a truthy string. -/
def urnToMqttFormat (urn : String) : String :=
  replaceChar ':' '_' urn

/-- mqttFormatToUrn (src/index.js:1009): mqttFormat.replace(/_/g, ':'),
turning urn_mrn_imo_mmsi_368396230 into urn:mrn:imo:mmsi:368396230. -/
def mqttFormatToUrn (mqttFormat : String) : String :=
  replaceChar '_' ':' mqttFormat

/-- The canonical identifier shape of the spec, section 3: a structured
token urn:<namespace-path>:<numeric-id>, colon-delimited, whose
namespace path never contains the transport delimiter and whose trailing
sub-identifier is a non-empty run of digits. -/
def canonicalShape (s : String) : Prop :=
  ∃ mid num : String,
    s = "urn:" ++ mid ++ ":" ++ num ∧
    mid.data.all (fun c => c != '_') = true ∧
    num ≠ "" ∧
    num.data.all Char.isDigit = true

/-- The transport (underscore-delimited) identifier shape: the image of a
canonical identifier, so it never contains a colon. -/
def transportShape (s : String) : Prop :=
  ∃ mid num : String,
    s = "urn_" ++ mid ++ "_" ++ num ∧
    mid.data.all (fun c => c != ':') = true ∧
    num ≠ "" ∧
    num.data.all Char.isDigit = true

theorem map_swap_back (a b : Char) (hab : a ≠ b) :
    ∀ l : List Char, (∀ c ∈ l, c ≠ b) →
      (l.map (fun c => if c = a then b else c)).map (fun c => if c = b then a else c) = l
| [], _ => rfl
| c :: cs, h => by
  have hc : c ≠ b := h c (List.mem_cons_self c cs)
  have ih := map_swap_back a b hab cs (fun x hx => h x (List.mem_cons_of_mem c hx))
  simp only [List.map_cons, ih]
  by_cases hca : c = a
  · subst hca
    simp [hab.symm]
  · simp [if_neg hca, if_neg hc]

theorem replaceChar_replaceChar (a b : Char) (hab : a ≠ b) (s : String)
    (h : ∀ c ∈ s.data, c ≠ b) :
    replaceChar b a (replaceChar a b s) = s := by
  unfold replaceChar
  apply String.ext
  exact map_swap_back a b hab s.data h

theorem no_underscore_of_canonicalShape (s : String) (hs : canonicalShape s) :
    ∀ c ∈ s.data, c ≠ '_' := by
  obtain ⟨mid, num, heq, hmid, _, hnum⟩ := hs
  subst heq
  intro c hc
  simp only [String.data_append, List.mem_append] at hc
  intro hEq
  subst hEq
  rcases hc with ((h1 | h2) | h3) | h4
  · exact absurd h1 (by decide)
  · have := List.all_eq_true.mp hmid _ h2
    simp at this
  · exact absurd h3 (by decide)
  · have := List.all_eq_true.mp hnum _ h4
    simp at this

theorem no_colon_of_transportShape (s : String) (hs : transportShape s) :
    ∀ c ∈ s.data, c ≠ ':' := by
  obtain ⟨mid, num, heq, hmid, _, hnum⟩ := hs
  subst heq
  intro c hc
  simp only [String.data_append, List.mem_append] at hc
  intro hEq
  subst hEq
  rcases hc with ((h1 | h2) | h3) | h4
  · exact absurd h1 (by decide)
  · have := List.all_eq_true.mp hmid _ h2
    simp at this
  · exact absurd h3 (by decide)
  · have := List.all_eq_true.mp hnum _ h4
    simp at this

/-- Claim C3: for every identifier of the canonical shape
urn:<namespace-path>:<numeric-id>, decoding after encoding round-trips,
and the reverse composition is the identity on well-formed transport-form
identifiers. -/
theorem urn_codec_roundtrip (s t : String) (hs : canonicalShape s) (ht : transportShape t) :
    mqttFormatToUrn (urnToMqttFormat s) = s ∧
    urnToMqttFormat (mqttFormatToUrn t) = t := by
  constructor
  · exact replaceChar_replaceChar ':' '_' (by decide) s (no_underscore_of_canonicalShape s hs)
  · exact replaceChar_replaceChar '_' ':' (by decide) t (no_colon_of_transportShape t ht)

theorem urn_codec_roundtrip_witness :
    canonicalShape "urn:mrn:imo:mmsi:368396230" ∧
    transportShape "urn_mrn_imo_mmsi_368396230" ∧
    (mqttFormatToUrn (urnToMqttFormat "urn:mrn:imo:mmsi:368396230") = "urn:mrn:imo:mmsi:368396230" ∧
     urnToMqttFormat (mqttFormatToUrn "urn_mrn_imo_mmsi_368396230") = "urn_mrn_imo_mmsi_368396230") := by
  have hs : canonicalShape "urn:mrn:imo:mmsi:368396230" :=
    ⟨"mrn:imo:mmsi", "368396230", by decide, by decide, by decide, by decide⟩
  have ht : transportShape "urn_mrn_imo_mmsi_368396230" :=
    ⟨"mrn_imo_mmsi", "368396230", by decide, by decide, by decide, by decide⟩
  exact ⟨hs, ht, urn_codec_roundtrip _ _ hs ht⟩

/-- A token of the regular expressions the matcher builds: every character
of the pattern is a literal except '+', which the source rewrites to the
regex piece matching one or more characters other than '/'
(src/index.js:849-857). The patterns involved contain no other regex
metacharacters. -/
inductive RTok where
| lit (c : Char)
| anyseg
deriving DecidableEq

/-- Compile a pattern string the way new RegExp(p.replace(/\+/g, ...)) reads
it: '+' becomes the one-or-more-non-slash piece, everything else a literal. -/
def compilePattern (p : String) : List RTok :=
  p.data.map (fun c => if c = '+' then RTok.anyseg else RTok.lit c)

/-- Does the token list match some prefix of the character list; anyseg
consumes one or more characters other than '/', with full backtracking. -/
def rMatchPre : List RTok → List Char → Bool
| [], _ => true
| RTok.lit _ :: _, [] => false
| RTok.lit c :: ts, d :: cs => c = d && rMatchPre ts cs
| RTok.anyseg :: _, [] => false
| RTok.anyseg :: ts, d :: cs =>
  if d = '/' then false
  else rMatchPre ts cs || rMatchPre (RTok.anyseg :: ts) cs

/-- JS regex.test for an unanchored regex: the token list matches at some
start position inside the string. -/
def rTest (ts : List RTok) : List Char → Bool
| [] => rMatchPre ts []
| d :: cs => rMatchPre ts (d :: cs) || rTest ts cs

/-- The topic pattern matcher of handleMQTTMessage (src/index.js:826-871),
taking the already-prefixed pattern expectedTopic. The three wildcard
classes are dispatched on includes('#') then includes('+'); each class has
a vessels/self/ variant used only when that placeholder occurs in the
pattern and the self URN is truthy. -/
def topicMatches (selfUrn : Option String) (expectedTopic topic : String) : Bool :=
  if containsChar expectedTopic '#' then
    let pfx := removeFirst expectedTopic "#"
    if containsSub pfx "vessels/self/" && selfTruthy selfUrn then
      let u := selfUrn.getD ""
      let urnPfx := replaceFirst pfx "vessels/self/" ("vessels/" ++ u ++ "/")
      let usPfx := replaceFirst pfx "vessels/self/" ("vessels/" ++ urnToMqttFormat u ++ "/")
      startsW topic pfx || startsW topic urnPfx || startsW topic usPfx
    else
      startsW topic pfx || startsW topic (replaceChar '_' ':' pfx)
  else if containsChar expectedTopic '+' then
    if containsSub expectedTopic "vessels/self/" && selfTruthy selfUrn then
      let u := selfUrn.getD ""
      let urnPat := replaceFirst expectedTopic "vessels/self/" ("vessels/" ++ u ++ "/")
      let usPat := replaceFirst expectedTopic "vessels/self/" ("vessels/" ++ urnToMqttFormat u ++ "/")
      rTest (compilePattern expectedTopic) topic.data ||
        rTest (compilePattern urnPat) topic.data ||
        rTest (compilePattern usPat) topic.data
    else
      rTest (compilePattern expectedTopic) topic.data ||
        rTest (compilePattern (replaceChar '_' ':' expectedTopic)) topic.data
  else
    if containsSub expectedTopic "vessels/self/" && selfTruthy selfUrn then
      let u := selfUrn.getD ""
      let urnTopic := replaceFirst expectedTopic "vessels/self/" ("vessels/" ++ u ++ "/")
      let usTopic := replaceFirst expectedTopic "vessels/self/" ("vessels/" ++ urnToMqttFormat u ++ "/")
      topic == expectedTopic || topic == urnTopic || topic == usTopic
    else
      topic == expectedTopic || topic == replaceChar '_' ':' expectedTopic

/-- Segment-by-segment single-level wildcard matching as the MQTT topic
grammar defines it: equal segment counts, and each pattern segment is
either the '+' wildcard or literally equal to the topic segment. Used as
the reference point of claim C9. -/
def specSegmentMatch (pat topic : String) : Bool :=
  let ps := jsSplit '/' pat
  let ts := jsSplit '/' topic
  ps.length == ts.length && (List.zip ps ts).all (fun pt => pt.1 == "+" || pt.1 == pt.2)

/-- The rewriting claim C5 ascribes to the matcher, following the words of
the spec: every transport-form identifier occurrence (the fixed namespace
path urn_mrn_imo_mmsi_ followed by the numeric sub-identifier) is
rewritten to canonical form, and nothing else is touched. -/
def specCanonicalizeIdOccurrences (s : String) : String :=
  replaceAllSub s "urn_mrn_imo_mmsi_" "urn:mrn:imo:mmsi:"

/-- Claim C5, corrected: with no wildcard and no self placeholder in the
pattern, the matcher accepts the topic exactly when it equals the pattern
or equals the pattern with every underscore replaced by a colon. -/
theorem noWildcard_match_iff (selfUrn : Option String) (p t : String)
    (h1 : containsChar p '#' = false) (h2 : containsChar p '+' = false)
    (h3 : containsSub p "vessels/self/" = false) :
    topicMatches selfUrn p t = true ↔ (t = p ∨ t = mqttFormatToUrn p) := by
  unfold topicMatches mqttFormatToUrn
  rw [h1, h2, h3]
  simp [beq_iff_eq]

theorem noWildcard_match_iff_witness :
    containsChar "a/b" '#' = false ∧ containsChar "a/b" '+' = false ∧
    containsSub "a/b" "vessels/self/" = false ∧
    (topicMatches none "a/b" "a/b" = true ↔ ("a/b" = "a/b" ∨ "a/b" = mqttFormatToUrn "a/b")) := by
  exact ⟨by decide, by decide, by decide,
    noWildcard_match_iff none "a/b" "a/b" (by decide) (by decide) (by decide)⟩

/-- Claim C5, counterexample: the pattern a_b contains no wildcard, no self
placeholder and no transport-form identifier occurrence at all, so the
rewriting the claim describes leaves it unchanged; yet the matcher accepts
the distinct topic a:b, because the source compares against the pattern
with every underscore replaced, not only identifier occurrences. -/
theorem noWildcard_match_not_id_occurrences_only :
    containsChar "a_b" '#' = false ∧ containsChar "a_b" '+' = false ∧
    containsSub "a_b" "vessels/self/" = false ∧
    specCanonicalizeIdOccurrences "a_b" = "a_b" ∧
    ("a:b" : String) ≠ "a_b" ∧
    topicMatches none "a_b" "a:b" = true := by
  refine ⟨by decide, by decide, by decide, by decide, by decide, by decide⟩

/-- Claim C9: the compiled '+' regex is unanchored, so a pattern with a
single-level wildcard accepts a topic that is not a segment-by-segment
match: vessels/+/navigation/position accepts
xvessels/a/navigation/position/extra because the regex is satisfied by an
inner substring of the topic. -/
theorem plusWildcard_unanchored :
    containsChar "vessels/+/navigation/position" '+' = true ∧
    containsSub "vessels/+/navigation/position" "vessels/self/" = false ∧
    specSegmentMatch "vessels/+/navigation/position" "xvessels/a/navigation/position/extra" = false ∧
    topicMatches none "vessels/+/navigation/position" "xvessels/a/navigation/position/extra" = true := by
  refine ⟨by decide, by decide, by decide, by decide⟩


/-- The composite deduplication key of src/index.js:896, the template
string topic ":" payload. -/
def dedupKey (topic payload : String) : String :=
  topic ++ ":" ++ payload

/-- JS Map.get by string key over the entry list in insertion order (the
state of the lastReceivedMessages Map); none plays undefined. -/
def mapLookup (k : String) : List (String × Nat) → Option Nat
| [] => none
| (k2, v) :: es => if k = k2 then some v else mapLookup k es

/-- The batch eviction of src/index.js:903-907: once the map holds more
than 1000 entries, the first 500 entries of Array.from(entries) — the 500
oldest by insertion order — are deleted in one batch. The state is the
entry list of the Map in insertion order; keys are unique because an entry
is only ever inserted after a negative has() check, so deleting those 500
keys is dropping the first 500 entries. -/
def evictOld (m : List (String × Nat)) : List (String × Nat) :=
  if 1000 < m.length then m.drop 500 else m

/-- The duplicate check of src/index.js:894-908 as a state transformer:
given the rule's ignoreDuplicates flag, the topic, the payload text and
the current Date.now() instant, it returns whether the message is
suppressed together with the updated map. A hit returns early without
touching the map; a miss appends the key with the current timestamp (a
Map.set of an absent key appends in insertion order) and then runs the
batch eviction. -/
def dedupStep (ignoreDuplicates : Bool) (topic payload : String) (now : Nat)
    (m : List (String × Nat)) : Bool × List (String × Nat) :=
  if ignoreDuplicates = false then (false, m)
  else if (mapLookup (dedupKey topic payload) m).isSome then (true, m)
  else (false, evictOld (m ++ [(dedupKey topic payload, now)]))

/-- One processed message, as far as the dedup cache is concerned: the
matched rule's ignoreDuplicates flag, the topic, the payload text, and the
wall-clock instant. -/
def processEvents : List (Bool × String × String × Nat) → List (String × Nat) → List (String × Nat)
| [], m => m
| (en, t, p, now) :: es, m => processEvents es (dedupStep en t p now m).2

theorem mapLookup_none_append (k : String) (l m : List (String × Nat))
    (h : mapLookup k m = none) :
    mapLookup k (m ++ l) = mapLookup k l := by
  induction m with
  | nil => simp
  | cons e es ih =>
    obtain ⟨k2, v⟩ := e
    rw [List.cons_append]
    rw [mapLookup] at h ⊢
    by_cases hk : k = k2
    · rw [if_pos hk] at h; exact absurd h (by simp)
    · rw [if_neg hk] at h ⊢; exact ih h

theorem mapLookup_none_drop (k : String) (n : Nat) (m : List (String × Nat))
    (h : mapLookup k m = none) :
    mapLookup k (m.drop n) = none := by
  induction m generalizing n with
  | nil => cases n <;> exact h
  | cons e es ih =>
    obtain ⟨k2, v⟩ := e
    cases n with
    | zero => exact h
    | succ n =>
      rw [List.drop_succ_cons]
      rw [mapLookup] at h
      by_cases hk : k = k2
      · rw [if_pos hk] at h; exact absurd h (by simp)
      · rw [if_neg hk] at h; exact ih n h

theorem mapLookup_evict_inserted (k : String) (v : Nat) (m : List (String × Nat))
    (h : mapLookup k m = none) :
    mapLookup k (evictOld (m ++ [(k, v)])) = some v := by
  have hsingle : ∀ l : List (String × Nat), mapLookup k l = none →
      mapLookup k (l ++ [(k, v)]) = some v := by
    intro l hl
    rw [mapLookup_none_append k _ l hl]
    simp [mapLookup]
  unfold evictOld
  by_cases hl : 1000 < (m ++ [(k, v)]).length
  · rw [if_pos hl]
    have hm : 500 ≤ m.length := by
      simp [List.length_append] at hl
      omega
    rw [List.drop_append_of_le_length hm]
    exact hsingle (m.drop 500) (mapLookup_none_drop k 500 m h)
  · rw [if_neg hl]
    exact hsingle m h

theorem evictOld_length_le (l : List (String × Nat)) (h : l.length ≤ 1001) :
    (evictOld l).length ≤ 1000 := by
  unfold evictOld
  by_cases hl : 1000 < l.length
  · rw [if_pos hl, List.length_drop]; omega
  · rw [if_neg hl]; omega

theorem dedupStep_length_le (en : Bool) (t p : String) (now : Nat)
    (m : List (String × Nat)) (hm : m.length ≤ 1000) :
    (dedupStep en t p now m).2.length ≤ 1000 := by
  unfold dedupStep
  by_cases hen : en = false
  · rw [if_pos hen]; exact hm
  · rw [if_neg hen]
    by_cases hh : (mapLookup (dedupKey t p) m).isSome
    · rw [if_pos hh]; exact hm
    · rw [if_neg hh]
      exact evictOld_length_le _ (by simp [List.length_append]; omega)

theorem processEvents_length_le (es : List (Bool × String × String × Nat))
    (m : List (String × Nat)) (hm : m.length ≤ 1000) :
    (processEvents es m).length ≤ 1000 := by
  induction es generalizing m with
  | nil => exact hm
  | cons e es ih =>
    obtain ⟨en, t, p, now⟩ := e
    exact ih _ (dedupStep_length_le en t p now m hm)

/-- Claim C2: starting from the empty map, the dedup map never holds more
than 1000 entries once a message has been fully processed (so even the
triggering insert only ever reaches 1000 + 1 momentarily), and when an
insert into a full 1000-entry map pushes the cardinality past 1000,
exactly the 500 oldest entries by insertion order are removed in one
batch, every newer entry surviving in order, followed by the fresh
insert. -/
theorem dedup_cache_bound (es : List (Bool × String × String × Nat))
    (t p : String) (now : Nat) (m : List (String × Nat)) (hm : m.length ≤ 1000) :
    (processEvents es []).length ≤ 1000 ∧
    (dedupStep true t p now m).2.length ≤ 1000 ∧
    (m.length = 1000 → mapLookup (dedupKey t p) m = none →
      (dedupStep true t p now m).2 = m.drop 500 ++ [(dedupKey t p, now)]) := by
  refine ⟨processEvents_length_le es [] (by simp [processEvents]), dedupStep_length_le true t p now m hm, ?_⟩
  intro hlen hnone
  unfold dedupStep
  rw [if_neg (by simp), hnone]
  simp only [Option.isSome_none, Bool.false_eq_true, if_false]
  unfold evictOld
  rw [if_pos (by simp [List.length_append, hlen])]
  exact List.drop_append_of_le_length (by omega)

theorem dedup_cache_bound_witness :
    (([] : List (String × Nat)).length ≤ 1000) ∧
    ((processEvents [(true, "a/b", "1", 5)] []).length ≤ 1000 ∧
     (dedupStep true "a/b" "1" 5 []).2.length ≤ 1000 ∧
     (([] : List (String × Nat)).length = 1000 → mapLookup (dedupKey "a/b" "1") [] = none →
       (dedupStep true "a/b" "1" 5 []).2 = ([] : List (String × Nat)).drop 500 ++ [(dedupKey "a/b" "1", 5)])) :=
  ⟨by decide, dedup_cache_bound [(true, "a/b", "1", 5)] "a/b" "1" 5 [] (by decide)⟩

/-- Claim C7: with duplicate suppression enabled, a first occurrence of a
(topic, payload) pair is delivered and recorded under the current
timestamp; an identical repeat while the entry is cached is suppressed
with the map left entirely unchanged (so the stored timestamp is not
refreshed); a message on the same topic with a different, previously
unseen payload is not suppressed; and with suppression disabled nothing
is ever suppressed and nothing is recorded. -/
theorem dedup_per_rule (t p q : String) (now now2 ts : Nat) (m : List (String × Nat)) :
    (dedupStep false t p now m = (false, m)) ∧
    (mapLookup (dedupKey t p) m = none →
      (dedupStep true t p now m).1 = false ∧
      mapLookup (dedupKey t p) (dedupStep true t p now m).2 = some now) ∧
    (mapLookup (dedupKey t p) m = some ts → dedupStep true t p now m = (true, m)) ∧
    (p ≠ q → mapLookup (dedupKey t q) m = none →
      (dedupStep true t q now2 (dedupStep true t p now m).2).1 = false) := by
  refine ⟨rfl, ?_, ?_, ?_⟩
  · intro hnone
    unfold dedupStep
    rw [if_neg (by simp), hnone]
    refine ⟨by simp, ?_⟩
    simp only [Option.isSome_none, Bool.false_eq_true, if_false]
    exact mapLookup_evict_inserted _ now m hnone
  · intro hsome
    unfold dedupStep
    rw [if_neg (by simp), hsome]
    simp
  · intro hpq hnone
    have hkey : dedupKey t q ≠ dedupKey t p := by
      intro he
      apply hpq
      have hd : ((t ++ ":") ++ q).data = ((t ++ ":") ++ p).data := congrArg String.data he
      rw [String.data_append, String.data_append] at hd
      exact (String.ext (List.append_cancel_left hd)).symm
    obtain ⟨s2, hs2⟩ : ∃ x, (dedupStep true t p now m).2 = x := ⟨_, rfl⟩
    have hstate : mapLookup (dedupKey t q) s2 = none := by
      rw [← hs2]
      unfold dedupStep
      rw [if_neg (by simp)]
      by_cases hh : (mapLookup (dedupKey t p) m).isSome
      · rw [if_pos hh]; exact hnone
      · rw [if_neg hh]
        simp only
        unfold evictOld
        have hap : mapLookup (dedupKey t q) (m ++ [(dedupKey t p, now)]) = none := by
          rw [mapLookup_none_append _ _ _ hnone]
          simp [mapLookup, hkey]
        by_cases hl : 1000 < (m ++ [(dedupKey t p, now)]).length
        · rw [if_pos hl]
          exact mapLookup_none_drop _ 500 _ hap
        · rw [if_neg hl]; exact hap
    rw [hs2]
    unfold dedupStep
    rw [if_neg (by simp), hstate]
    simp

theorem dedup_per_rule_witness :
    mapLookup (dedupKey "a/b" "1") [] = none ∧
    mapLookup (dedupKey "a/b" "2") [] = none ∧
    ("1" : String) ≠ "2" ∧
    (dedupStep false "a/b" "1" 0 [] = (false, []) ∧
     ((dedupStep true "a/b" "1" 0 []).1 = false ∧
      mapLookup (dedupKey "a/b" "1") (dedupStep true "a/b" "1" 0 []).2 = some 0) ∧
     (dedupStep true "a/b" "2" 1 (dedupStep true "a/b" "1" 0 []).2).1 = false) := by
  have h := dedup_per_rule "a/b" "1" "2" 0 1 7 []
  exact ⟨rfl, rfl, by decide, h.1, h.2.1 rfl, h.2.2.2 (by decide) rfl⟩

/-- Claim C10: the dedup key concatenates topic, a colon and the payload,
so the two distinct messages (topic a/b:1, payload 2) and (topic a/b,
payload 1:2) share the key a/b:1:2, and processing the first makes the
dedup cache suppress the second as a duplicate. -/
theorem dedup_key_collision :
    (("a/b:1", "2") : String × String) ≠ ("a/b", "1:2") ∧
    dedupKey "a/b:1" "2" = dedupKey "a/b" "1:2" ∧
    (dedupStep true "a/b" "1:2" 1 (dedupStep true "a/b:1" "2" 0 []).2).1 = true := by
  refine ⟨by decide, by decide, by decide⟩


/-- An import rule as persisted and used by the second revision of the
source: plain JSON data (the runtime-only transformValue extension point
cannot survive persistence and is never set for stored rules). -/
structure ImportRule where
  id : String
  name : String
  mqttTopic : String
  signalKContext : String
  signalKPath : String
  sourceLabel : String
  enabled : Bool
  payloadFormat : String
  ignoreDuplicates : Bool
  excludeMMSI : String
deriving DecidableEq

/-- JS s.trim(). -/
def jsTrim (s : String) : String :=
  String.mk (((s.data.dropWhile Char.isWhitespace).reverse.dropWhile Char.isWhitespace).reverse)

/-- parseMMSIExclusionList (src/index.js:1024-1027): an empty or absent
excludeMMSI gives the empty list, otherwise split on commas, trim each
piece and drop empty pieces. -/
def parseMMSIExclusionList (excludeMMSI : String) : List String :=
  if excludeMMSI = "" then []
  else ((jsSplit ',' excludeMMSI).map jsTrim).filter (fun s => s != "")

/-- One or both of the delimiter characters accepted between identifier
segments by the extraction regex. -/
def sepUC (c : Char) : Bool :=
  c = '_' || c = ':'

/-- Match a literal run at the head of the input, returning the rest. -/
def matchLit (lit : List Char) (cs : List Char) : Option (List Char) :=
  if lit.isPrefixOf cs then some (cs.drop lit.length) else none

/-- Match one or more delimiter characters at the head of the input
(greedy, which is equivalent here because no following literal starts with
a delimiter character). -/
def matchSeps1 : List Char → Option (List Char)
| [] => none
| c :: cs => if sepUC c then some (cs.dropWhile sepUC) else none

/-- Match the extraction regex of src/index.js:1019 at the start of the
input: urn then mrn then imo then mmsi, each pair separated by one or more
of _ or :, followed by the captured non-empty digit run. -/
def matchMMSIAt (cs : List Char) : Option String :=
  (matchLit "urn".data cs).bind (fun cs =>
  (matchSeps1 cs).bind (fun cs =>
  (matchLit "mrn".data cs).bind (fun cs =>
  (matchSeps1 cs).bind (fun cs =>
  (matchLit "imo".data cs).bind (fun cs =>
  (matchSeps1 cs).bind (fun cs =>
  (matchLit "mmsi".data cs).bind (fun cs =>
  (matchSeps1 cs).bind (fun cs =>
    (let ds := cs.takeWhile Char.isDigit
     if ds.isEmpty then none else some (String.mk ds))))))))))

/-- Leftmost-match search, as JS String.match performs on an unanchored
regex. -/
def mmsiSearch : List Char → Option String
| [] => none
| c :: cs =>
  match matchMMSIAt (c :: cs) with
  | some m => some m
  | none => mmsiSearch cs

/-- extractMMSIFromUrn (src/index.js:1016-1021): the captured digit run of
the first regex match, or none. -/
def extractMMSIFromUrn (urn : String) : Option String :=
  mmsiSearch urn.data

/-- isMMSIExcluded (src/index.js:1030-1050): a rule excludes a topic when
its exclusion list is non-empty, the topic has a vessels first segment and
at least two segments, the second segment yields an MMSI, and that MMSI is
in the list. -/
def isMMSIExcluded (topic : String) (rule : ImportRule) : Bool :=
  let exclusionList := parseMMSIExclusionList rule.excludeMMSI
  if exclusionList.isEmpty then false
  else
    let parts := jsSplit '/' topic
    if parts.length < 2 ∨ ¬(parts.head? = some "vessels") then false
    else
      match extractMMSIFromUrn ((parts.get? 1).getD "") with
      | none => false
      | some mmsi => exclusionList.contains mmsi

/-- The configured topic-prefix applied to a rule pattern
(src/index.js:818-820). -/
def applyTopicPfx (topicPfx pat : String) : String :=
  if topicPfx != "" then topicPfx ++ "/" ++ pat else pat

/-- The rule-matching loop of handleMQTTMessage (src/index.js:813-885),
exactly as the source executes it. Note the first branch: on a disabled
rule the source runs a bare return false inside the for-of loop, which
returns from handleMQTTMessage and so aborts the whole search instead of
skipping to the next rule. -/
def findMatchingRule (topicPfx : String) (selfUrn : Option String) (topic : String) :
    List ImportRule → Option ImportRule
| [] => none
| r :: rs =>
  if r.enabled = false then none
  else
    let expectedTopic := applyTopicPfx topicPfx r.mqttTopic
    let m := topicMatches selfUrn expectedTopic topic
    if m && isMMSIExcluded topic r then findMatchingRule topicPfx selfUrn topic rs
    else if m then some r
    else findMatchingRule topicPfx selfUrn topic rs

/-- The rule search as section 4.4 of the spec describes it: scan the
rules in stored order, skip a disabled rule and continue, skip an excluded
match and continue, and return the first enabled rule that matches and is
not excluded. Stated here for comparison with findMatchingRule. -/
def specFindMatch (topicPfx : String) (selfUrn : Option String) (topic : String) :
    List ImportRule → Option ImportRule
| [] => none
| r :: rs =>
  if r.enabled && topicMatches selfUrn (applyTopicPfx topicPfx r.mqttTopic) topic
      && !(isMMSIExcluded topic r) then some r
  else specFindMatch topicPfx selfUrn topic rs

/-- A disabled rule placed before an enabled one. -/
def ruleOff : ImportRule :=
  { id := "r0"
    name := "R0"
    mqttTopic := "a/b"
    signalKContext := ""
    signalKPath := ""
    sourceLabel := ""
    enabled := false
    payloadFormat := "full"
    ignoreDuplicates := false
    excludeMMSI := "" }

/-- An enabled rule whose pattern matches the probe topic. -/
def ruleOn : ImportRule :=
  { id := "r1"
    name := "R1"
    mqttTopic := "a/b"
    signalKContext := ""
    signalKPath := ""
    sourceLabel := ""
    enabled := true
    payloadFormat := "full"
    ignoreDuplicates := false
    excludeMMSI := "" }

/-- R1 of the exclusion scenario: enabled, wildcard vessel pattern,
excludes MMSI 7. -/
def ruleExcl7 : ImportRule :=
  { id := "rx"
    name := "RX"
    mqttTopic := "vessels/urn_mrn_imo_mmsi_+/navigation/position"
    signalKContext := ""
    signalKPath := ""
    sourceLabel := ""
    enabled := true
    payloadFormat := "full"
    ignoreDuplicates := false
    excludeMMSI := "7" }

/-- R2 of the exclusion scenario: same pattern, no exclusion. -/
def ruleNoExcl : ImportRule :=
  { id := "ry"
    name := "RY"
    mqttTopic := "vessels/urn_mrn_imo_mmsi_+/navigation/position"
    signalKContext := ""
    signalKPath := ""
    sourceLabel := ""
    enabled := true
    payloadFormat := "full"
    ignoreDuplicates := false
    excludeMMSI := "" }

/-- Claim C1 (code bug): the source aborts the rule scan at the first
disabled rule instead of skipping it — with a disabled rule stored before
an enabled rule whose pattern matches, the loop returns no rule at all
while the documented search returns the enabled rule. The
exclusion half of the claim does hold: among enabled rules, an excluded
match is skipped and the scan continues, so with R1 excluding MMSI 7
before R2 with the same pattern, the MMSI 7 topic lands on R2 and the
MMSI 8 topic lands on R1. -/
theorem findMatchingRule_aborts_on_disabled :
    findMatchingRule "" none "a/b" [ruleOff, ruleOn] = none ∧
    ruleOn.enabled = true ∧
    topicMatches none (applyTopicPfx "" ruleOn.mqttTopic) "a/b" = true ∧
    isMMSIExcluded "a/b" ruleOn = false ∧
    specFindMatch "" none "a/b" [ruleOff, ruleOn] = some ruleOn ∧
    findMatchingRule "" none "vessels/urn_mrn_imo_mmsi_7/navigation/position"
      [ruleExcl7, ruleNoExcl] = some ruleNoExcl ∧
    findMatchingRule "" none "vessels/urn_mrn_imo_mmsi_8/navigation/position"
      [ruleExcl7, ruleNoExcl] = some ruleExcl7 := by
  refine ⟨by decide, by decide, by decide, by decide, by decide, by decide, by decide⟩

/-- The prefix-stripping step shared by context and path extraction
(src/index.js:1054-1058): with a configured prefix, remove its first
occurrence followed by a slash; otherwise leave the topic alone. -/
def stripTopicPfx (topicPfx topic : String) : String :=
  if topicPfx != "" then replaceFirst topic (topicPfx ++ "/") "" else topic

/-- extractContextFromTopic (src/index.js:1053-1083): for a vessels topic
with more than two segments, map the second segment to vessels.self when
it equals the self URN in either encoding, canonicalize it when it is in
transport form, keep it when already canonical, and otherwise use it
verbatim; every other topic falls back to vessels.self. -/
def extractContextFromTopic (topicPfx : String) (selfUrn : Option String) (topic : String) : String :=
  let cleanTopic := stripTopicPfx topicPfx topic
  let parts := jsSplit '/' cleanTopic
  if parts.head? = some "vessels" ∧ 2 < parts.length then
    let vesselId := (parts.get? 1).getD ""
    if selfTruthy selfUrn = true ∧
        (urnToMqttFormat (selfUrn.getD "") = vesselId ∨ selfUrn.getD "" = vesselId) then
      "vessels.self"
    else if startsW vesselId "urn_" then "vessels." ++ mqttFormatToUrn vesselId
    else if startsW vesselId "urn:" then "vessels." ++ vesselId
    else "vessels." ++ vesselId
  else "vessels.self"

/-- extractPathFromTopic (src/index.js:1086-1104): for a vessels topic
with more than two segments, join the segments from the third onward with
dots; otherwise use the whole cleaned topic with slashes turned into
dots. -/
def extractPathFromTopic (topicPfx : String) (topic : String) : String :=
  let cleanTopic := stripTopicPfx topicPfx topic
  let parts := jsSplit '/' cleanTopic
  if parts.head? = some "vessels" ∧ 2 < parts.length then
    joinDot (parts.drop 2)
  else replaceChar '/' '.' cleanTopic

/-- Claim C4: with no configured prefix, a topic of the form
vessels/<token>/<rest...> with more than two segments derives context
vessels.self exactly when the token equals the resolved self identifier
in either encoding, derives vessels. followed by the canonicalized token
when the token starts with the transport prefix urn_, and derives the
remaining segments joined with dots as the path. -/
theorem extractContext_path_spec (topic tok u : String) (rest : List String)
    (h : jsSplit '/' topic = "vessels" :: tok :: rest) (hr : rest ≠ []) (hu : u ≠ "") :
    ((urnToMqttFormat u = tok ∨ u = tok) →
      extractContextFromTopic "" (some u) topic = "vessels.self") ∧
    (¬(urnToMqttFormat u = tok ∨ u = tok) → startsW tok "urn_" = true →
      extractContextFromTopic "" (some u) topic = "vessels." ++ mqttFormatToUrn tok) ∧
    extractPathFromTopic "" topic = joinDot rest := by
  have hcond : (jsSplit '/' topic).head? = some "vessels" ∧ 2 < (jsSplit '/' topic).length := by
    rw [h]
    refine ⟨rfl, ?_⟩
    cases rest with
    | nil => exact absurd rfl hr
    | cons a as => simp [List.length_cons]
  have hget : ((jsSplit '/' topic).get? 1).getD "" = tok := by rw [h]; rfl
  have hdrop : (jsSplit '/' topic).drop 2 = rest := by rw [h]; rfl
  have hstrip : stripTopicPfx "" topic = topic := rfl
  have hself : selfTruthy (some u) = true := by
    simp [selfTruthy, hu]
  refine ⟨?_, ?_, ?_⟩
  · intro hor
    unfold extractContextFromTopic
    rw [hstrip]
    rw [if_pos hcond, hget]
    rw [if_pos ⟨hself, by simpa using hor⟩]
  · intro hnor hurn
    unfold extractContextFromTopic
    rw [hstrip]
    rw [if_pos hcond, hget]
    rw [if_neg (fun hcontra => hnor (by simpa using hcontra.2))]
    rw [if_pos hurn]
  · unfold extractPathFromTopic
    rw [hstrip]
    rw [if_pos hcond, hdrop]

theorem extractContext_path_spec_witness :
    jsSplit '/' "vessels/urn_mrn_imo_mmsi_368396230/navigation/position" =
      ["vessels", "urn_mrn_imo_mmsi_368396230", "navigation", "position"] ∧
    extractContextFromTopic "" (some "urn:mrn:imo:mmsi:368396230")
      "vessels/urn_mrn_imo_mmsi_368396230/navigation/position" = "vessels.self" ∧
    extractContextFromTopic "" (some "urn:mrn:imo:mmsi:999999999")
      "vessels/urn_mrn_imo_mmsi_368396230/navigation/position" = "vessels.urn:mrn:imo:mmsi:368396230" ∧
    extractPathFromTopic "" "vessels/urn_mrn_imo_mmsi_368396230/navigation/position" = "navigation.position" := by
  have h1 := extractContext_path_spec "vessels/urn_mrn_imo_mmsi_368396230/navigation/position"
    "urn_mrn_imo_mmsi_368396230" "urn:mrn:imo:mmsi:368396230" ["navigation", "position"]
    (by decide) (by decide) (by decide)
  have h2 := extractContext_path_spec "vessels/urn_mrn_imo_mmsi_368396230/navigation/position"
    "urn_mrn_imo_mmsi_368396230" "urn:mrn:imo:mmsi:999999999" ["navigation", "position"]
    (by decide) (by decide) (by decide)
  refine ⟨by decide, h1.1 (Or.inl (by decide)), ?_, h1.2.2.trans (by decide)⟩
  exact (h2.2.1 (by decide) (by decide)).trans (by decide)


/-- A parsed JSON value, the result of JSON.parse on a payload text. The
numbers the claims exercise are integral, so numerals are carried as
integers. -/
inductive JVal where
| jnull
| jbool (b : Bool)
| jnum (n : Int)
| jstr (s : String)
| jarr (xs : List JVal)
| jobj (fs : List (String × JVal))

/-- JS truthiness of a parsed JSON value: null, false, 0 and the empty
string are falsy; every array and object is truthy. -/
def jsTruthy : JVal → Bool
| JVal.jnull => false
| JVal.jbool b => b
| JVal.jnum n => n != 0
| JVal.jstr s => s != ""
| JVal.jarr _ => true
| JVal.jobj _ => true

/-- Field lookup in a JSON object literal (first binding wins; JSON.parse
output carries no duplicate keys). -/
def objLookup (k : String) : List (String × JVal) → Option JVal
| [] => none
| (k2, v) :: fs => if k = k2 then some v else objLookup k fs

/-- JS property access parsed.context and friends; none plays undefined
(primitive receivers other than null give undefined). -/
def getField : JVal → String → Option JVal
| JVal.jobj fs, k => objLookup k fs
| _, _ => none

/-- Truthiness of a possibly-undefined value. -/
def jsTruthyO : Option JVal → Bool
| none => false
| some v => jsTruthy v

/-- JS Array.isArray on a possibly-undefined value. -/
def isArrO : Option JVal → Bool
| some (JVal.jarr _) => true
| _ => false

/-- parseFullSignalKMessage (src/index.js:968-999) on the result of
JSON.parse: none stands for a parse error (caught, message dropped);
accessing .context on a parsed null throws and is likewise caught. When
the parsed value has truthy context and updates fields it is returned as
is; otherwise a fresh delta is assembled from the rule overrides, the
parsed context field, topic derivation and the current timestamp, wrapping
the whole parsed value as the single produced value. -/
def parseFullBody (rule : ImportRule) (topicPfx : String) (selfUrn : Option String)
    (topic now : String) (parsed : JVal) : JVal :=
  if jsTruthyO (getField parsed "context") && jsTruthyO (getField parsed "updates") then
    parsed
  else
    let context : JVal :=
      if rule.signalKContext != "" then JVal.jstr rule.signalKContext
      else
        match getField parsed "context" with
        | some c =>
          if jsTruthy c then c
          else JVal.jstr (extractContextFromTopic topicPfx selfUrn topic)
        | none => JVal.jstr (extractContextFromTopic topicPfx selfUrn topic)
    let path := if rule.signalKPath != "" then rule.signalKPath
      else extractPathFromTopic topicPfx topic
    JVal.jobj
      [("context", context),
       ("updates", JVal.jarr
         [JVal.jobj
           [("source", JVal.jobj
              [("label", JVal.jstr rule.sourceLabel), ("type", JVal.jstr "mqtt")]),
            ("timestamp", JVal.jstr now),
            ("values", JVal.jarr
              [JVal.jobj [("path", JVal.jstr path), ("value", parsed)]])]])]

/-- The outer shell of parseFullSignalKMessage: a parse error or a parsed
null is dropped, anything else goes through parseFullBody. -/
def parseFullSignalKMessage (rule : ImportRule) (topicPfx : String) (selfUrn : Option String)
    (topic now : String) : Option JVal → Option JVal
| none => none
| some JVal.jnull => none
| some parsed => some (parseFullBody rule topicPfx selfUrn topic now parsed)

/-- sendToSignalK (src/index.js:1107-1133) as a pure delivery function:
some is the value handed to the host sink, none a drop. A null value
throws on property access and is caught (nothing delivered). The
transformValue hook is absent here because persisted rules are plain JSON
and can never carry a function value, so the hook never fires under the
stored rule set. -/
def sendToSignalK (signalKData : JVal) : Option JVal :=
  match signalKData with
  | JVal.jnull => none
  | d =>
    if !jsTruthyO (getField d "context") || !jsTruthyO (getField d "updates")
        || !isArrO (getField d "updates") then none
    else some d

/-- Claim C6, corrected: a Full-format payload parsing to an object whose
context field holds a truthy value and whose updates field is an array is
returned unchanged, independent of the rule overrides and of the topic. -/
theorem parseFull_passthrough (rule : ImportRule) (topicPfx : String) (selfUrn : Option String)
    (topic now : String) (fs : List (String × JVal)) (c : JVal) (xs : List JVal)
    (hc : objLookup "context" fs = some c) (hct : jsTruthy c = true)
    (hu : objLookup "updates" fs = some (JVal.jarr xs)) :
    parseFullSignalKMessage rule topicPfx selfUrn topic now (some (JVal.jobj fs)) =
      some (JVal.jobj fs) := by
  have hcond : (jsTruthyO (getField (JVal.jobj fs) "context") &&
      jsTruthyO (getField (JVal.jobj fs) "updates")) = true := by
    have h1 : getField (JVal.jobj fs) "context" = some c := hc
    have h2 : getField (JVal.jobj fs) "updates" = some (JVal.jarr xs) := hu
    rw [h1, h2]
    show (jsTruthy c && jsTruthy (JVal.jarr xs)) = true
    rw [hct]
    rfl
  show some (parseFullBody rule topicPfx selfUrn topic now (JVal.jobj fs)) = some (JVal.jobj fs)
  unfold parseFullBody
  rw [hcond]
  simp

/-- The concrete fields of the pass-through witness. -/
def c6okFields : List (String × JVal) :=
  [("context", JVal.jstr "vessels.self"), ("updates", JVal.jarr [])]

/-- A default rule used by the payload-interpretation examples: no
overrides, full format. -/
def plainRule : ImportRule :=
  { id := "p0"
    name := "P0"
    mqttTopic := "a/b"
    signalKContext := ""
    signalKPath := ""
    sourceLabel := ""
    enabled := true
    payloadFormat := "full"
    ignoreDuplicates := false
    excludeMMSI := "" }

theorem parseFull_passthrough_witness :
    objLookup "context" c6okFields = some (JVal.jstr "vessels.self") ∧
    jsTruthy (JVal.jstr "vessels.self") = true ∧
    objLookup "updates" c6okFields = some (JVal.jarr []) ∧
    parseFullSignalKMessage plainRule "" none "a/b" "TS" (some (JVal.jobj c6okFields)) =
      some (JVal.jobj c6okFields) :=
  ⟨rfl, rfl, rfl,
    parseFull_passthrough plainRule "" none "a/b" "TS" c6okFields (JVal.jstr "vessels.self") []
      rfl rfl rfl⟩

/-- The concrete fields of the claim C6 counterexample: the object has
both a context field and an updates array, but the context value is the
empty string, which is falsy. -/
def c6cexFields : List (String × JVal) :=
  [("context", JVal.jstr ""), ("updates", JVal.jarr [])]

/-- Claim C6, counterexample: a payload parsing to an object that has both
a context field and an updates array is nevertheless not passed through
when the context value is falsy — the source tests truthiness, not
presence, so this payload is re-wrapped instead of returned unchanged. -/
theorem parseFull_empty_context_not_passthrough :
    objLookup "context" c6cexFields = some (JVal.jstr "") ∧
    objLookup "updates" c6cexFields = some (JVal.jarr []) ∧
    parseFullSignalKMessage plainRule "" none "a/b" "TS" (some (JVal.jobj c6cexFields)) ≠
      some (JVal.jobj c6cexFields) := by
  refine ⟨rfl, rfl, ?_⟩
  intro h
  have h1 : getField (JVal.jobj
      [("context", JVal.jstr "vessels.self"),
       ("updates", JVal.jarr
         [JVal.jobj
           [("source", JVal.jobj
              [("label", JVal.jstr ""), ("type", JVal.jstr "mqtt")]),
            ("timestamp", JVal.jstr "TS"),
            ("values", JVal.jarr
              [JVal.jobj [("path", JVal.jstr "a.b"),
                          ("value", JVal.jobj c6cexFields)]])]])]) "context" =
      getField (JVal.jobj c6cexFields) "context" := by
    exact congrArg (fun v => getField v "context") (Option.some.inj h)
  have h2 : some (JVal.jstr "vessels.self") = some (JVal.jstr "") := h1
  have h3 := Option.some.inj h2
  have h4 : ("vessels.self" : String) = "" := by injection h3
  exact absurd h4 (by decide)

/-- Claim C8, corrected: the delivery step hands the interpreted update to
the sink exactly when its context field is truthy and its updates field
is an array — including the empty array, which passes the source's
Array.isArray gate even though it holds no updates. -/
theorem sendToSignalK_delivers_iff (d : JVal) :
    (sendToSignalK d).isSome = true ↔
      (jsTruthyO (getField d "context") = true ∧
       ∃ xs, getField d "updates" = some (JVal.jarr xs)) := by
  cases d with
  | jnull => simp [sendToSignalK, getField, jsTruthyO]
  | jbool b => simp [sendToSignalK, getField, jsTruthyO]
  | jnum n => simp [sendToSignalK, getField, jsTruthyO]
  | jstr s => simp [sendToSignalK, getField, jsTruthyO]
  | jarr xs => simp [sendToSignalK, getField, jsTruthyO]
  | jobj fs =>
    show (if !jsTruthyO (objLookup "context" fs) || !jsTruthyO (objLookup "updates" fs)
        || !isArrO (objLookup "updates" fs) then (none : Option JVal)
      else some (JVal.jobj fs)).isSome = true ↔ _
    cases hu : objLookup "updates" fs with
    | none => simp [getField, hu, jsTruthyO, isArrO]
    | some v =>
      cases v <;> simp [getField, hu, jsTruthyO, isArrO, jsTruthy]

/-- The claim C8 counterexample value: truthy context, empty updates
array. -/
def c8data : JVal :=
  JVal.jobj [("context", JVal.jstr "vessels.self"), ("updates", JVal.jarr [])]

/-- Claim C8, counterexample: an update whose updates array is empty is
handed to the sink by the source, while the claim requires a non-empty
updates array for delivery. -/
theorem sendToSignalK_empty_updates_delivered :
    getField c8data "updates" = some (JVal.jarr []) ∧
    sendToSignalK c8data = some c8data :=
  ⟨rfl, rfl⟩

end MqttImport
